import Mathlib

/-!
Verification of the scroll-activity controller of the autoshow-scrollbars
plugin. The controller is embedded as a discrete-event simulation: timers
carry absolute deadlines, the per-container timeout handle (the value the
source stores in `this.timeouts`) is a partial map from containers to
timer ids, and the event loop is modelled by an `advanceTo` function that
fires all due timers in (deadline, scheduling-order) order, as the host
event loop does.  Containers are identified by natural numbers; DOM class
membership is a list of containers carrying the class.
-/

namespace AutoShow

/-- Settings of the plugin, from `ScrollbarSettings` in `main.ts`
(`hideDelay`, `showDelay`, `color : string | null`). -/
structure Settings where
  hideDelay : Nat
  showDelay : Nat
  color : Option String
deriving DecidableEq, Repr

/-- A timer callback: either the show-action (adds the class `scrolling`
to the container) or the hide-action (removes it). -/
inductive TAct where
  | show (c : Nat) : TAct
  | hide (c : Nat) : TAct
deriving DecidableEq, Repr

/-- A scheduled timer: its `setTimeout` handle, its absolute deadline
(scheduling instant plus delay), and its callback. -/
structure Timer where
  id : Nat
  deadline : Nat
  act : TAct
deriving DecidableEq, Repr

/-- The controller state: the settings snapshot, the current time, the
next fresh `setTimeout` handle, the pending timers (in scheduling order),
the `this.timeouts` map from container to stored hide-timer handle, the
set of containers carrying the `scrolling` class, the body class
`auto-hide-scrollbar`, the document scroll listener, and the global style
state (`data-scrollbar-color` attribute and `--custom-scrollbar-color`
variable). -/
structure St where
  settings : Settings
  now : Nat
  nextId : Nat
  pending : List Timer
  timeouts : Nat → Option Nat
  scrolling : List Nat
  bodyAutoHide : Bool
  listener : Bool
  colorAttr : Bool
  colorVar : Option String

/-- `classList.add`: a no-op when the class is already present. -/
def addClass (l : List Nat) (c : Nat) : List Nat :=
  if l.contains c then l else l ++ [c]

/-- `classList.remove`. -/
def removeClass (l : List Nat) (c : Nat) : List Nat :=
  l.filter (fun x => x ≠ c)

/-- Whether container `c` currently carries the `scrolling` class. -/
def isScrolling (c : Nat) (s : St) : Bool :=
  s.scrolling.contains c

/-- Running a timer callback (the body of the arrow functions passed to
`setTimeout` in `handleScroll` of `main.ts`): the show callback adds the
`scrolling` class; the hide callback removes it and deletes the
container's entry from `this.timeouts`. -/
def fireTimer (tm : Timer) (s : St) : St :=
  match tm.act with
  | TAct.show c => { s with scrolling := addClass s.scrolling c }
  | TAct.hide c =>
      { s with scrolling := removeClass s.scrolling c,
               timeouts := fun k => if k = c then none else s.timeouts k }

/-- The due timer the event loop runs next at time `t`: the pending timer
with deadline ≤ `t` that is minimal in (deadline, handle) order; handles
increase with scheduling order, so this is the host's firing order. -/
def pickDue (t : Nat) : List Timer → Option Timer
  | [] => none
  | tm :: rest =>
    match pickDue t rest with
    | none => if tm.deadline ≤ t then some tm else none
    | some b =>
        if tm.deadline ≤ t ∧
            (tm.deadline < b.deadline ∨ (tm.deadline = b.deadline ∧ tm.id < b.id)) then
          some tm
        else some b

/-- Fire all timers due at time `t`, fuelled by the number of pending
timers (no callback of this program schedules a new timer, so the fuel
suffices). -/
def fireDue : Nat → Nat → St → St
  | 0, _, s => s
  | n + 1, t, s =>
    match pickDue t s.pending with
    | none => s
    | some tm =>
        fireDue n t (fireTimer tm { s with pending := s.pending.filter (fun x => x.id ≠ tm.id) })

/-- Advance the clock to time `t` (never backwards), running every timer
whose deadline has passed, in firing order. -/
def advanceTo (t : Nat) (s : St) : St :=
  let tt := max s.now t
  { fireDue s.pending.length tt s with now := tt }

/-- `window.setTimeout`: append a timer with a fresh handle and absolute
deadline `now + delay`. -/
def schedule (act : TAct) (delay : Nat) (s : St) : St :=
  { s with pending := s.pending ++ [⟨s.nextId, s.now + delay, act⟩],
           nextId := s.nextId + 1 }

/-- The cancel step at the top of `handleScroll`:
`if (timeoutId) window.clearTimeout(timeoutId)`. Handles are ≥ 1, so the
truthiness test coincides with presence of the stored handle. -/
def cancelStored (c : Nat) (s : St) : St :=
  match s.timeouts c with
  | some i => { s with pending := s.pending.filter (fun tm => tm.id ≠ i) }
  | none => s

/-- `ScrollPlugin.handleScroll` of `main.ts`, after the target guard: clear
the stored timeout if any, then either schedule the show-action after
`showDelay` ms (its handle is discarded) or add the `scrolling` class
synchronously, then schedule the hide-action after `hideDelay + showDelay`
ms and store its handle. -/
def handleScroll (c : Nat) (s : St) : St :=
  let s1 := cancelStored c s
  let s2 :=
    if 0 < s1.settings.showDelay then
      schedule (TAct.show c) s1.settings.showDelay s1
    else
      { s1 with scrolling := addClass s1.scrolling c }
  let s3 := schedule (TAct.hide c) (s2.settings.hideDelay + s2.settings.showDelay) s2
  { s3 with timeouts := fun k => if k = c then some s2.nextId else s3.timeouts k }

/-- The target of a scroll event: a DOM element (a container), a
non-`Element` event target, or a null target. -/
inductive Tgt where
  | elem (c : Nat) : Tgt
  | nonElement : Tgt
  | null : Tgt

/-- The full scroll listener, including the guard
`if (!e.target || !(e.target instanceof Element)) return;`. -/
def handleEvent (tg : Tgt) (s : St) : St :=
  match tg with
  | Tgt.null => s
  | Tgt.nonElement => s
  | Tgt.elem c => handleScroll c s

/-- JavaScript truthiness of a `string | null` settings value: `null` and
the empty string are falsy. -/
def colorTruthy : Option String → Bool
  | none => false
  | some c => !(c == "")

/-- `ScrollPlugin.updateScrollbarColor`: set the `data-scrollbar-color`
body attribute and the `--custom-scrollbar-color` variable when
`settings.color` is truthy, otherwise remove both. -/
def updateScrollbarColor (s : St) : St :=
  if colorTruthy s.settings.color then
    { s with colorAttr := true, colorVar := s.settings.color }
  else
    { s with colorAttr := false, colorVar := none }

/-- `ScrollPlugin.updateSettings`: replace the settings snapshot, then
re-apply the global color styling. -/
def updateSettings (ns : Settings) (s : St) : St :=
  updateScrollbarColor { s with settings := ns }

/-- `ScrollPlugin.initForWorkspace`: apply color styling, add the
`auto-hide-scrollbar` body class, attach the capture-phase document scroll
listener. -/
def initForWorkspace (s : St) : St :=
  let s1 := updateScrollbarColor s
  { s1 with bodyAutoHide := true, listener := true }

/-- A browser page before the plugin runs: no timers, no stored handles,
no classes, no listener, no styling; `setTimeout` handles start at 1
(browser handles are positive, which is what makes the source's
truthiness tests on stored handles correct). -/
def freshState (stg : Settings) : St :=
  { settings := stg, now := 0, nextId := 1, pending := [],
    timeouts := fun _ => none, scrolling := [],
    bodyAutoHide := false, listener := false,
    colorAttr := false, colorVar := none }

/-- The `ScrollPlugin` constructor: store the settings and run
`initForWorkspace`. -/
def mkPlugin (stg : Settings) : St :=
  initForWorkspace (freshState stg)

/-- One iteration of the `document.querySelectorAll('.scrolling').forEach`
body in `ScrollPlugin.destroy`: remove the `scrolling` class from the
element and clear its stored timeout, if any (the entry itself is not
deleted from the map). -/
def destroyStep (st : St) (el : Nat) : St :=
  let st1 := { st with scrolling := removeClass st.scrolling el }
  match st1.timeouts el with
  | some i => { st1 with pending := st1.pending.filter (fun tm => tm.id ≠ i) }
  | none => st1

/-- `ScrollPlugin.destroy`: remove the `auto-hide-scrollbar` body class,
detach the document listener, then for each element currently carrying
the `scrolling` class remove the class and clear its stored timeout, and
finally remove the global color styling. -/
def destroy (s : St) : St :=
  let s1 := { s with bodyAutoHide := false, listener := false }
  let s2 := s1.scrolling.foldl destroyStep s1
  { s2 with colorAttr := false, colorVar := none }

/-- The states the controller can reach: the constructed plugin, and
closure under the passage of time, scroll events, settings updates and
teardown. -/
inductive Reachable : St → Prop where
  | init (stg : Settings) : Reachable (mkPlugin stg)
  | tick (t : Nat) {s : St} : Reachable s → Reachable (advanceTo t s)
  | event (tg : Tgt) {s : St} : Reachable s → Reachable (handleEvent tg s)
  | upd (ns : Settings) {s : St} : Reachable s → Reachable (updateSettings ns s)
  | down {s : St} : Reachable s → Reachable (destroy s)

/-- The pending hide-timers for container `c`. -/
def hideFor (c : Nat) (l : List Timer) : List Timer :=
  l.filter (fun tm => tm.act = TAct.hide c)

/-- The pending show-timers for container `c`. -/
def showFor (c : Nat) (l : List Timer) : List Timer :=
  l.filter (fun tm => tm.act = TAct.show c)

/-- The containers with a pending hide-timer, with multiplicity. -/
def hideTgts (l : List Timer) : List Nat :=
  l.filterMap (fun tm => match tm.act with | TAct.hide c => some c | _ => none)

/-- The handle `handleScroll` gives the hide-timer it schedules: the next
fresh handle, or the one after it when a show-timer is scheduled first. -/
def newHideId (s : St) : Nat :=
  if 0 < s.settings.showDelay then s.nextId + 1 else s.nextId

/-- Run a sequence of scroll events on container `c` at the given times:
advance the clock to each time, then run the scroll handler. -/
def runEvents (c : Nat) (es : List Nat) (s : St) : St :=
  es.foldl (fun st e => handleScroll c (advanceTo e st)) s

/-- Whether container `c` carries the `scrolling` class at time `t`, when
the plugin is constructed with settings `stg` and the scroll events of
`es` at time ≤ `t` have been delivered and all timers due by `t` have
fired. -/
def classAt (c : Nat) (stg : Settings) (es : List Nat) (t : Nat) : Bool :=
  isScrolling c (advanceTo t (runEvents c (es.filter (fun e => decide (e ≤ t))) (mkPlugin stg)))

/-- A strictly increasing event sequence starting after `p` with
consecutive gaps below `d` (also between `p` and the first event). -/
def gapsOKb (d : Nat) : Nat → List Nat → Bool
  | _, [] => true
  | p, e :: es => decide (p < e) && decide (e < p + d) && gapsOKb d e es

/-- The last event time ≤ `t` of the sequence, `t0` when none is. -/
def lastLE (t0 : Nat) (es : List Nat) (t : Nat) : Nat :=
  es.foldl (fun a e => if e ≤ t then e else a) t0

/-- The controller state mid-burst with `showDelay = 0`: the container
`c` carries the class, exactly one hide-timer for `c` is pending with
deadline `dl` and handle `i`, and that handle is stored for `c`. -/
def mkShape (d c tau dl i n : Nat) : St :=
  { settings := ⟨d, 0, none⟩, now := tau, nextId := n,
    pending := [⟨i, dl, TAct.hide c⟩],
    timeouts := fun k => if k = c then some i else none,
    scrolling := [c],
    bodyAutoHide := true, listener := true,
    colorAttr := false, colorVar := none }

/-- The timer-bookkeeping invariant the controller maintains: pending
handles are fresh-bounded and duplicate-free, each container has at most
one pending hide-timer, a pending hide-timer's handle is the one stored
for its container, a stored handle that is still pending belongs to a
hide-timer for that container, and stored handles are fresh-bounded. -/
structure SInv (s : St) : Prop where
  idsLt : ∀ tm ∈ s.pending, tm.id < s.nextId
  idsNd : (s.pending.map Timer.id).Nodup
  hideNd : (hideTgts s.pending).Nodup
  stored : ∀ tm ∈ s.pending, ∀ c, tm.act = TAct.hide c → s.timeouts c = some tm.id
  storedHide : ∀ c i, s.timeouts c = some i → ∀ tm ∈ s.pending, tm.id = i → tm.act = TAct.hide c
  storedLt : ∀ c i, s.timeouts c = some i → i < s.nextId

end AutoShow

namespace P0

/-- The part of the older plugin variant's state that `addContainer`
touches: the registered-container set, the set of elements with the
scroll listener attached (the listener is the single bound
`this.boundHandleScroll`, and `EventTarget.addEventListener` discards a
re-registration of an identical listener), and the set of elements
carrying the `auto-hide-scrollbar` class. -/
structure PSt where
  containers : List Nat
  listeners : List Nat
  autoHideCls : List Nat
deriving DecidableEq, Repr

/-- Insertion into a duplicate-free collection: `Set.add`,
`classList.add` and duplicate-discarding `addEventListener` all behave
this way. -/
def addSet (l : List Nat) (c : Nat) : List Nat :=
  if l.contains c then l else l ++ [c]

/-- `ScrollPlugin.addContainer` of the older variant: add the
`auto-hide-scrollbar` class, attach the scroll listener, record the
container in the set. -/
def addContainer (c : Nat) (s : PSt) : PSt :=
  { s with autoHideCls := addSet s.autoHideCls c,
           listeners := addSet s.listeners c,
           containers := addSet s.containers c }

end P0

namespace AutoShow

/-! ## General helper lemmas -/

/-- Two controller states with equal fields are equal. -/
theorem stEq {a b : St} (h1 : a.settings = b.settings) (h2 : a.now = b.now)
    (h3 : a.nextId = b.nextId) (h4 : a.pending = b.pending)
    (h5 : a.timeouts = b.timeouts) (h6 : a.scrolling = b.scrolling)
    (h7 : a.bodyAutoHide = b.bodyAutoHide) (h8 : a.listener = b.listener)
    (h9 : a.colorAttr = b.colorAttr) (h10 : a.colorVar = b.colorVar) : a = b := by
  cases a; cases b; simp_all

/-- Adding a class makes the element carry it. -/
theorem addClass_contains (l : List Nat) (c : Nat) : (addClass l c).contains c = true := by
  unfold addClass
  split
  · assumption
  · simp

/-- The scrolling class set after `handleScroll`: untouched when a
show-timer is scheduled, otherwise the class is added synchronously. -/
theorem handleScroll_scrolling (c : Nat) (s : St) :
    (handleScroll c s).scrolling =
      if 0 < s.settings.showDelay then s.scrolling else addClass s.scrolling c := by
  unfold handleScroll cancelStored schedule
  cases hc : s.timeouts c <;> by_cases hs : 0 < s.settings.showDelay <;> simp [hc, hs]

/-- The pending timers after `handleScroll`: the stored timeout (if any)
is cleared, then a show-timer is appended when `showDelay > 0`, then the
new hide-timer is appended. -/
theorem handleScroll_pending (c : Nat) (s : St) :
    (handleScroll c s).pending =
      ((cancelStored c s).pending ++
       (if 0 < s.settings.showDelay then
          [⟨s.nextId, s.now + s.settings.showDelay, TAct.show c⟩] else []) ++
       [⟨newHideId s, s.now + (s.settings.hideDelay + s.settings.showDelay), TAct.hide c⟩]) := by
  unfold handleScroll cancelStored schedule newHideId
  cases hc : s.timeouts c <;> by_cases hs : 0 < s.settings.showDelay <;>
    simp [hc, hs, List.append_assoc]

/-- `handleScroll` stores the handle of the hide-timer it scheduled. -/
theorem handleScroll_timeouts_self (c : Nat) (s : St) :
    (handleScroll c s).timeouts c = some (newHideId s) := by
  unfold handleScroll cancelStored schedule newHideId
  cases hc : s.timeouts c <;> by_cases hs : 0 < s.settings.showDelay <;> simp [hc, hs]

/-! ## C8: events with a non-element (or null) target are ignored -/

/-- C8: a scroll event whose target is null or not an `Element` is
filtered out by the guard in `handleScroll`: the state — classes, timers
and stored handles included — is unchanged and no error occurs. -/
theorem scroll_guard_ignores (s : St) :
    handleEvent Tgt.nonElement s = s ∧ handleEvent Tgt.null s = s ∧
    (handleEvent Tgt.nonElement s).scrolling = s.scrolling ∧
    (handleEvent Tgt.nonElement s).pending = s.pending ∧
    (handleEvent Tgt.nonElement s).timeouts = s.timeouts :=
  ⟨rfl, rfl, rfl, rfl, rfl⟩

/-! ## C10: updateSettings leaves class state unchanged -/

/-- C10: `updateSettings` changes no container's `scrolling` class, nor
the `auto-hide-scrollbar` class, nor any timer or stored handle; its only
DOM effect is on the global color attribute and variable, which become a
function of the new settings. -/
theorem updateSettings_frame (ns : Settings) (s : St) :
    (updateSettings ns s).scrolling = s.scrolling ∧
    (updateSettings ns s).bodyAutoHide = s.bodyAutoHide ∧
    (updateSettings ns s).pending = s.pending ∧
    (updateSettings ns s).timeouts = s.timeouts ∧
    (updateSettings ns s).listener = s.listener ∧
    (updateSettings ns s).now = s.now ∧
    (updateSettings ns s).nextId = s.nextId ∧
    (updateSettings ns s).colorAttr = colorTruthy ns.color ∧
    (updateSettings ns s).colorVar = (if colorTruthy ns.color then ns.color else none) := by
  unfold updateSettings updateScrollbarColor
  cases h : colorTruthy ns.color <;> simp [h]

/-! ## C6: settings swaps do not reschedule pending timers -/

/-- C6: `updateSettings` keeps every already-scheduled timer with its
original absolute deadline (and does not advance the clock), while the
timers scheduled by the next scroll event use the new delays: the new
hide-timer fires `ns.hideDelay + ns.showDelay` ms from now, and when
`ns.showDelay > 0` a show-timer firing `ns.showDelay` ms from now is
scheduled. -/
theorem updateSettings_keeps_deadlines (ns : Settings) (s : St) (c : Nat) :
    (updateSettings ns s).pending = s.pending ∧
    (updateSettings ns s).now = s.now ∧
    (handleScroll c (updateSettings ns s)).pending.getLast? =
      some ⟨newHideId (updateSettings ns s), s.now + (ns.hideDelay + ns.showDelay), TAct.hide c⟩ ∧
    (if 0 < ns.showDelay then
       Timer.mk s.nextId (s.now + ns.showDelay) (TAct.show c) ∈
         (handleScroll c (updateSettings ns s)).pending
     else True) := by
  have hp : (updateSettings ns s).pending = s.pending := (updateSettings_frame ns s).2.2.1
  have hn : (updateSettings ns s).now = s.now := (updateSettings_frame ns s).2.2.2.2.2.1
  have hnid : (updateSettings ns s).nextId = s.nextId := (updateSettings_frame ns s).2.2.2.2.2.2.1
  have hst : (updateSettings ns s).settings = ns := by
    unfold updateSettings updateScrollbarColor
    cases h : colorTruthy ns.color <;> simp [h]
  refine ⟨hp, hn, ?_, ?_⟩
  · rw [handleScroll_pending]
    rw [List.getLast?_concat]
    rw [hst, hn]
  · rw [handleScroll_pending]
    by_cases hs : 0 < ns.showDelay
    · simp only [hs, if_pos, hst]
      simp [hst, hn, hnid, List.mem_append]
    · simp [hs]

/-! ## C3: show path — timer when showDelay > 0, synchronous otherwise -/

/-- C3: on a handled scroll event, when `showDelay > 0` the controller
leaves the class state untouched and schedules a show-timer firing
`showDelay` ms from now; when `showDelay = 0` it adds the `scrolling`
class synchronously inside the callback and schedules no show-timer. -/
theorem show_path (s : St) (c : Nat) :
    (0 < s.settings.showDelay →
       (handleScroll c s).scrolling = s.scrolling ∧
       Timer.mk s.nextId (s.now + s.settings.showDelay) (TAct.show c) ∈
         (handleScroll c s).pending) ∧
    (s.settings.showDelay = 0 →
       isScrolling c (handleScroll c s) = true ∧
       (showFor c (handleScroll c s).pending).length ≤ (showFor c s.pending).length) := by
  constructor
  · intro hs
    constructor
    · rw [handleScroll_scrolling]
      simp [hs]
    · rw [handleScroll_pending]
      simp [hs]
  · intro hz
    have hs : ¬ 0 < s.settings.showDelay := by omega
    constructor
    · unfold isScrolling
      rw [handleScroll_scrolling]
      simp only [hs, if_neg, if_false]
      exact addClass_contains s.scrolling c
    · rw [handleScroll_pending]
      unfold showFor
      simp only [hs, if_false, List.append_nil, List.filter_append]
      have h2 : ([(⟨newHideId s, s.now + (s.settings.hideDelay + s.settings.showDelay),
          TAct.hide c⟩ : Timer)].filter (fun tm => tm.act = TAct.show c)) = [] := by simp
      rw [h2, List.append_nil]
      unfold cancelStored
      cases hc : s.timeouts c with
      | none => simp
      | some i =>
          exact List.Sublist.length_le (List.Sublist.filter _ (List.filter_sublist _))

/-- Witness for C3 at two concrete states: the plugin with default
settings (showDelay 0, class added synchronously, no show-timer) and the
plugin with showDelay 200 (class untouched, show-timer at deadline 200
pending). -/
theorem show_path_witness :
    (isScrolling 0 (handleScroll 0 (mkPlugin ⟨750, 0, none⟩)) = true ∧
     (showFor 0 (handleScroll 0 (mkPlugin ⟨750, 0, none⟩)).pending).length ≤
       (showFor 0 (mkPlugin ⟨750, 0, none⟩).pending).length) ∧
    ((handleScroll 0 (mkPlugin ⟨500, 200, none⟩)).scrolling = (mkPlugin ⟨500, 200, none⟩).scrolling ∧
     Timer.mk 1 200 (TAct.show 0) ∈ (handleScroll 0 (mkPlugin ⟨500, 200, none⟩)).pending) := by
  constructor
  · exact (show_path (mkPlugin ⟨750, 0, none⟩) 0).2 rfl
  · exact (show_path (mkPlugin ⟨500, 200, none⟩) 0).1 (by decide)

/-! ## C4: teardown does not cancel show-timers (code bug) -/

/-- C4 failing input: with showDelay 100 and hideDelay 200, one scroll
event at t = 0 followed immediately by `destroy`. The two timers the
event scheduled are still pending after `destroy` returns (the show-timer
handle was never stored, and the container does not carry the `scrolling`
class yet, so the `querySelectorAll('.scrolling')` loop cancels nothing),
and at t = 100 the leaked show-timer fires and adds the `scrolling` class
— a DOM mutation after teardown. -/
theorem destroy_leaks_show_timer :
    (destroy (handleEvent (Tgt.elem 0) (advanceTo 0 (mkPlugin ⟨200, 100, none⟩)))).pending ≠ [] ∧
    (destroy (handleEvent (Tgt.elem 0) (advanceTo 0 (mkPlugin ⟨200, 100, none⟩)))).listener = false ∧
    isScrolling 0 (advanceTo 100
      (destroy (handleEvent (Tgt.elem 0) (advanceTo 0 (mkPlugin ⟨200, 100, none⟩))))) = true := by
  decide

/-! ## C5: counterexample — show-timers are not debounced -/

/-- C5 counterexample: with showDelay 10, two scroll events 1 ms apart
(closer than showDelay) leave two show-timers pending for the same
container in a reachable state, refuting the at-most-one-show-timer
invariant. -/
theorem two_show_timers_pending :
    0 < (handleEvent (Tgt.elem 0) (advanceTo 1 (handleEvent (Tgt.elem 0)
          (advanceTo 0 (mkPlugin ⟨20, 10, none⟩))))).settings.showDelay ∧
    (showFor 0 (handleEvent (Tgt.elem 0) (advanceTo 1 (handleEvent (Tgt.elem 0)
          (advanceTo 0 (mkPlugin ⟨20, 10, none⟩))))).pending).length = 2 := by
  decide

/-! ## C7: counterexample — teardown can leave pending timers -/

/-- C7 counterexample: after a scroll event with showDelay 100 pending,
calling `destroy` twice still leaves timers pending, so the end state
claimed by the property ("no pending timers") does not hold. -/
theorem destroy_twice_pending_nonempty :
    (destroy (destroy (handleEvent (Tgt.elem 0)
        (advanceTo 0 (mkPlugin ⟨200, 100, none⟩))))).pending ≠ [] := by
  decide

/-! ## C1: counterexample — not Active during the show delay -/

/-- C1 counterexample: with showDelay 100 and hideDelay 200, after the
single scroll event of the sequence (at t = 0) the container does not
carry the `scrolling` class, neither at t = 0 nor at t = 99, so it is not
Active throughout the event sequence. -/
theorem not_active_during_show_delay :
    classAt 0 ⟨200, 100, none⟩ [0] 0 = false ∧
    classAt 0 ⟨200, 100, none⟩ [0] 99 = false := by
  decide

end AutoShow

namespace P0

/-! ## C9: container registration is idempotent -/

/-- After inserting, the element is in the set. -/
theorem addSet_contains (l : List Nat) (c : Nat) : (addSet l c).contains c = true := by
  unfold addSet
  split
  · assumption
  · simp

/-- Inserting an element already present is a no-op. -/
theorem addSet_of_contains (l : List Nat) (c : Nat) (h : l.contains c = true) :
    addSet l c = l := by
  unfold addSet
  rw [h]
  simp

/-- Inserting into a set twice is the same as inserting once. -/
theorem addSet_idem (l : List Nat) (c : Nat) : addSet (addSet l c) c = addSet l c :=
  addSet_of_contains _ _ (addSet_contains l c)

/-- Set insertion does not create duplicates. -/
theorem addSet_count (l : List Nat) (c : Nat) (h : l.count c ≤ 1) :
    (addSet l c).count c ≤ 1 := by
  unfold addSet
  split
  · exact h
  · next hc =>
      have hnm : c ∉ l := by
        intro hm
        exact hc (List.elem_eq_true_of_mem hm)
      simp [List.count_append, List.count_eq_zero.mpr hnm]

/-- C9: `addContainer` is idempotent per container — registering the same
container twice gives the same state as registering it once, and neither
the listener set nor the registered-container set acquires a duplicate
entry. -/
theorem addContainer_idem (c : Nat) (s : PSt) :
    addContainer c (addContainer c s) = addContainer c s ∧
    (s.listeners.count c ≤ 1 → (addContainer c s).listeners.count c ≤ 1) ∧
    (s.containers.count c ≤ 1 → (addContainer c s).containers.count c ≤ 1) := by
  refine ⟨?_, fun h => addSet_count _ _ h, fun h => addSet_count _ _ h⟩
  unfold addContainer
  rw [addSet_idem, addSet_idem, addSet_idem]

/-- Witness for C9 at the empty registration state and container 5. -/
theorem addContainer_idem_witness :
    addContainer 5 (addContainer 5 ⟨[], [], []⟩) = addContainer 5 ⟨[], [], []⟩ ∧
    (addContainer 5 (⟨[], [], []⟩ : PSt)).listeners.count 5 ≤ 1 ∧
    (addContainer 5 (⟨[], [], []⟩ : PSt)).containers.count 5 ≤ 1 := by
  have h := addContainer_idem 5 ⟨[], [], []⟩
  exact ⟨h.1, h.2.1 (by decide), h.2.2 (by decide)⟩

end P0

namespace AutoShow

/-! ## Timer-bookkeeping invariant: preservation lemmas -/

/-- `SInv` only looks at `pending`, `timeouts` and `nextId`. -/
theorem sinv_of_fields {s t : St} (h : SInv s) (hp : t.pending = s.pending)
    (ht : t.timeouts = s.timeouts) (hn : t.nextId = s.nextId) : SInv t := by
  refine ⟨?_, ?_, ?_, ?_, ?_, ?_⟩
  · rw [hp, hn]; exact h.idsLt
  · rw [hp]; exact h.idsNd
  · rw [hp]; exact h.hideNd
  · rw [hp, ht]; exact h.stored
  · rw [ht, hp]; exact h.storedHide
  · rw [ht, hn]; exact h.storedLt

/-- Removing pending timers preserves the invariant. -/
theorem sinv_filter (p : Timer → Bool) {s : St} (h : SInv s) :
    SInv { s with pending := s.pending.filter p } := by
  refine ⟨?_, ?_, ?_, ?_, ?_, ?_⟩
  · intro tm hm; exact h.idsLt tm (List.mem_of_mem_filter hm)
  · exact List.Nodup.sublist (List.Sublist.map _ (List.filter_sublist _)) h.idsNd
  · have hsub : List.Sublist (hideTgts (s.pending.filter p)) (hideTgts s.pending) :=
      List.Sublist.filterMap _ (List.filter_sublist _)
    exact List.Nodup.sublist hsub h.hideNd
  · intro tm hm c hact; exact h.stored tm (List.mem_of_mem_filter hm) c hact
  · intro c i hio tm hm hid; exact h.storedHide c i hio tm (List.mem_of_mem_filter hm) hid
  · exact h.storedLt

/-- A duplicate-free `filterMap` image separates its preimages. -/
theorem filterMap_nodup_inj {α β : Type} (f : α → Option β) :
    ∀ (l : List α), (l.filterMap f).Nodup →
      ∀ a ∈ l, ∀ b ∈ l, ∀ x, f a = some x → f b = some x → a = b := by
  intro l
  induction l with
  | nil => intro _ a ha; exact absurd ha (List.not_mem_nil a)
  | cons hd tl ih =>
    intro hnd a ha b hb x hfa hfb
    rw [List.mem_cons] at ha hb
    have htl : (tl.filterMap f).Nodup := by
      cases hfd : f hd with
      | none => rw [List.filterMap_cons_none hfd] at hnd; exact hnd
      | some y => rw [List.filterMap_cons_some hfd] at hnd; exact hnd.of_cons
    rcases ha with rfl | ha
    · rcases hb with rfl | hb
      · rfl
      · exfalso
        rw [List.filterMap_cons_some hfa] at hnd
        exact (List.nodup_cons.mp hnd).1 (List.mem_filterMap.mpr ⟨b, hb, hfb⟩)
    · rcases hb with rfl | hb
      · exfalso
        rw [List.filterMap_cons_some hfb] at hnd
        exact (List.nodup_cons.mp hnd).1 (List.mem_filterMap.mpr ⟨a, ha, hfa⟩)
      · exact ih htl a ha b hb x hfa hfb

/-- The cancel step preserves the invariant. -/
theorem cancelStored_sinv {s : St} (h : SInv s) (c : Nat) : SInv (cancelStored c s) := by
  unfold cancelStored
  cases hc : s.timeouts c with
  | none => exact h
  | some i => exact sinv_filter _ h

/-- After the cancel step, the container has no pending hide-timer: if a
handle was stored, the hide-timer carrying it was just removed; if none
was stored, no hide-timer for the container was pending at all. -/
theorem cancelStored_no_hide {s : St} (h : SInv s) (c : Nat) :
    ∀ tm ∈ (cancelStored c s).pending, tm.act ≠ TAct.hide c := by
  intro tm hm hact
  unfold cancelStored at hm
  cases hc : s.timeouts c with
  | none =>
      rw [hc] at hm
      have hst := h.stored tm hm c hact
      rw [hc] at hst
      exact Option.noConfusion hst
  | some i =>
      rw [hc] at hm
      have hmem := List.mem_of_mem_filter hm
      have hst := h.stored tm hmem c hact
      rw [hc] at hst
      have hid : tm.id = i := (Option.some.inj hst).symm
      have hne : (tm.id ≠ i) := by simpa using List.of_mem_filter hm
      exact hne hid

/-- The cancel step leaves all fields but `pending` unchanged. -/
theorem cancelStored_misc (c : Nat) (s : St) :
    (cancelStored c s).timeouts = s.timeouts ∧
    (cancelStored c s).nextId = s.nextId ∧
    (cancelStored c s).now = s.now ∧
    (cancelStored c s).settings = s.settings ∧
    (cancelStored c s).scrolling = s.scrolling := by
  unfold cancelStored
  cases hc : s.timeouts c <;> exact ⟨rfl, rfl, rfl, rfl, rfl⟩

/-- `hideTgts` ignores appended show-timers. -/
theorem hideTgts_append_show (l : List Timer) (i dl c : Nat) :
    hideTgts (l ++ [⟨i, dl, TAct.show c⟩]) = hideTgts l := by
  unfold hideTgts
  rw [List.filterMap_append]
  simp

/-- `hideTgts` records an appended hide-timer. -/
theorem hideTgts_append_hide (l : List Timer) (i dl c : Nat) :
    hideTgts (l ++ [⟨i, dl, TAct.hide c⟩]) = hideTgts l ++ [c] := by
  unfold hideTgts
  rw [List.filterMap_append]
  simp

/-- A container no timer hides is absent from `hideTgts`. -/
theorem not_mem_hideTgts {l : List Timer} {c : Nat}
    (h : ∀ tm ∈ l, tm.act ≠ TAct.hide c) : c ∉ hideTgts l := by
  intro hmem
  obtain ⟨tm, hm, hf⟩ := List.mem_filterMap.mp hmem
  cases hact : tm.act
  · rw [hact] at hf
    simp at hf
  · rename_i c'
    rw [hact] at hf
    simp at hf
    exact h tm hm (by rw [hact, hf])

/-- Scheduling a show-timer preserves the invariant. -/
theorem sinv_schedule_show (c d : Nat) {u : St} (hu : SInv u) :
    SInv (schedule (TAct.show c) d u) := by
  refine ⟨?_, ?_, ?_, ?_, ?_, ?_⟩
  · show ∀ tm ∈ u.pending ++ [⟨u.nextId, u.now + d, TAct.show c⟩], tm.id < u.nextId + 1
    intro tm hm
    rcases List.mem_append.mp hm with hm | hm
    · exact Nat.lt_succ_of_lt (hu.idsLt tm hm)
    · rw [List.mem_singleton.mp hm]; exact Nat.lt_succ_self _
  · show (List.map Timer.id (u.pending ++ [⟨u.nextId, u.now + d, TAct.show c⟩])).Nodup
    rw [List.map_append, List.nodup_append]
    refine ⟨hu.idsNd, List.nodup_singleton _, ?_⟩
    intro x hx hmem
    obtain ⟨tm, hm, rfl⟩ := List.mem_map.mp hx
    have hlt := hu.idsLt tm hm
    have heq : tm.id = u.nextId := by simpa using hmem
    omega
  · show (hideTgts (u.pending ++ [⟨u.nextId, u.now + d, TAct.show c⟩])).Nodup
    rw [hideTgts_append_show]
    exact hu.hideNd
  · show ∀ tm ∈ u.pending ++ [⟨u.nextId, u.now + d, TAct.show c⟩], ∀ c',
        tm.act = TAct.hide c' → u.timeouts c' = some tm.id
    intro tm hm c' hact
    rcases List.mem_append.mp hm with hm | hm
    · exact hu.stored tm hm c' hact
    · rw [List.mem_singleton.mp hm] at hact
      exact absurd hact (by simp)
  · show ∀ k i, u.timeouts k = some i →
        ∀ tm ∈ u.pending ++ [⟨u.nextId, u.now + d, TAct.show c⟩], tm.id = i →
          tm.act = TAct.hide k
    intro k i hio tm hm hid
    rcases List.mem_append.mp hm with hm | hm
    · exact hu.storedHide k i hio tm hm hid
    · exfalso
      rw [List.mem_singleton.mp hm] at hid
      have := hu.storedLt k i hio
      simp at hid
      omega
  · show ∀ k i, u.timeouts k = some i → i < u.nextId + 1
    intro k i hio
    exact Nat.lt_succ_of_lt (hu.storedLt k i hio)

/-- Scheduling a show-timer cannot create a hide-timer. -/
theorem schedule_show_no_hide (c d c' : Nat) {u : St}
    (h : ∀ tm ∈ u.pending, tm.act ≠ TAct.hide c') :
    ∀ tm ∈ (schedule (TAct.show c) d u).pending, tm.act ≠ TAct.hide c' := by
  intro tm hm
  rcases List.mem_append.mp hm with hm | hm
  · exact h tm hm
  · rw [List.mem_singleton.mp hm]
    simp

/-- Scheduling the hide-timer and storing its handle restores the
invariant, given that the container has no other pending hide-timer. -/
theorem sinv_finish (c dl : Nat) {u : St} (hu : SInv u)
    (hno : ∀ tm ∈ u.pending, tm.act ≠ TAct.hide c) :
    SInv { schedule (TAct.hide c) dl u with
           timeouts := fun k =>
             if k = c then some u.nextId else (schedule (TAct.hide c) dl u).timeouts k } := by
  refine ⟨?_, ?_, ?_, ?_, ?_, ?_⟩
  · show ∀ tm ∈ u.pending ++ [⟨u.nextId, u.now + dl, TAct.hide c⟩], tm.id < u.nextId + 1
    intro tm hm
    rcases List.mem_append.mp hm with hm | hm
    · exact Nat.lt_succ_of_lt (hu.idsLt tm hm)
    · rw [List.mem_singleton.mp hm]; exact Nat.lt_succ_self _
  · show (List.map Timer.id (u.pending ++ [⟨u.nextId, u.now + dl, TAct.hide c⟩])).Nodup
    rw [List.map_append, List.nodup_append]
    refine ⟨hu.idsNd, List.nodup_singleton _, ?_⟩
    intro x hx hmem
    obtain ⟨tm, hm, rfl⟩ := List.mem_map.mp hx
    have hlt := hu.idsLt tm hm
    have heq : tm.id = u.nextId := by simpa using hmem
    omega
  · show (hideTgts (u.pending ++ [⟨u.nextId, u.now + dl, TAct.hide c⟩])).Nodup
    rw [hideTgts_append_hide, List.nodup_append]
    refine ⟨hu.hideNd, List.nodup_singleton _, ?_⟩
    intro x hx hmem
    have hxc : x = c := by simpa using hmem
    rw [hxc] at hx
    exact not_mem_hideTgts hno hx
  · show ∀ tm ∈ u.pending ++ [⟨u.nextId, u.now + dl, TAct.hide c⟩], ∀ c',
        tm.act = TAct.hide c' →
          (if c' = c then some u.nextId else u.timeouts c') = some tm.id
    intro tm hm c' hact
    rcases List.mem_append.mp hm with hm | hm
    · have hcc : c' ≠ c := fun hc => hno tm hm (hc ▸ hact)
      rw [if_neg hcc]
      exact hu.stored tm hm c' hact
    · rw [List.mem_singleton.mp hm] at hact ⊢
      have hcc : c' = c := by simpa using hact.symm
      rw [if_pos hcc]
  · show ∀ k i, (if k = c then some u.nextId else u.timeouts k) = some i →
        ∀ tm ∈ u.pending ++ [⟨u.nextId, u.now + dl, TAct.hide c⟩], tm.id = i →
          tm.act = TAct.hide k
    intro k i hio tm hm hid
    by_cases hk : k = c
    · rw [if_pos hk] at hio
      have hi : u.nextId = i := Option.some.inj hio
      rcases List.mem_append.mp hm with hm | hm
      · exfalso
        have := hu.idsLt tm hm
        omega
      · rw [List.mem_singleton.mp hm]
        show TAct.hide c = TAct.hide k
        rw [hk]
    · rw [if_neg hk] at hio
      rcases List.mem_append.mp hm with hm | hm
      · exact hu.storedHide k i hio tm hm hid
      · exfalso
        have hlt := hu.storedLt k i hio
        rw [List.mem_singleton.mp hm] at hid
        simp at hid
        omega
  · show ∀ k i, (if k = c then some u.nextId else u.timeouts k) = some i → i < u.nextId + 1
    intro k i hio
    by_cases hk : k = c
    · rw [if_pos hk] at hio
      have : u.nextId = i := Option.some.inj hio
      omega
    · rw [if_neg hk] at hio
      exact Nat.lt_succ_of_lt (hu.storedLt k i hio)

end AutoShow

namespace AutoShow

/-- `handleScroll` when a show-timer is scheduled, as an explicit record. -/
theorem handleScroll_eq_pos (c : Nat) (s : St)
    (hs : 0 < (cancelStored c s).settings.showDelay) :
    handleScroll c s =
      { schedule (TAct.hide c)
          ((schedule (TAct.show c) (cancelStored c s).settings.showDelay
              (cancelStored c s)).settings.hideDelay +
           (schedule (TAct.show c) (cancelStored c s).settings.showDelay
              (cancelStored c s)).settings.showDelay)
          (schedule (TAct.show c) (cancelStored c s).settings.showDelay (cancelStored c s)) with
        timeouts := fun k =>
          if k = c then
            some (schedule (TAct.show c) (cancelStored c s).settings.showDelay
                    (cancelStored c s)).nextId
          else
            (schedule (TAct.hide c)
              ((schedule (TAct.show c) (cancelStored c s).settings.showDelay
                  (cancelStored c s)).settings.hideDelay +
               (schedule (TAct.show c) (cancelStored c s).settings.showDelay
                  (cancelStored c s)).settings.showDelay)
              (schedule (TAct.show c) (cancelStored c s).settings.showDelay
                (cancelStored c s))).timeouts k } := by
  simp only [handleScroll]
  rw [if_pos hs]

/-- `handleScroll` when the class is added synchronously, as an explicit
record. -/
theorem handleScroll_eq_neg (c : Nat) (s : St)
    (hs : ¬ 0 < (cancelStored c s).settings.showDelay) :
    handleScroll c s =
      { schedule (TAct.hide c)
          (({ cancelStored c s with
              scrolling := addClass (cancelStored c s).scrolling c } : St).settings.hideDelay +
           ({ cancelStored c s with
              scrolling := addClass (cancelStored c s).scrolling c } : St).settings.showDelay)
          { cancelStored c s with
            scrolling := addClass (cancelStored c s).scrolling c } with
        timeouts := fun k =>
          if k = c then
            some ({ cancelStored c s with
                    scrolling := addClass (cancelStored c s).scrolling c } : St).nextId
          else
            (schedule (TAct.hide c)
              (({ cancelStored c s with
                  scrolling := addClass (cancelStored c s).scrolling c } : St).settings.hideDelay +
               ({ cancelStored c s with
                  scrolling := addClass (cancelStored c s).scrolling c } : St).settings.showDelay)
              { cancelStored c s with
                scrolling := addClass (cancelStored c s).scrolling c }).timeouts k } := by
  simp only [handleScroll]
  rw [if_neg hs]

/-- Scroll handling preserves the invariant. -/
theorem sinv_handleScroll (c : Nat) {s : St} (h : SInv s) : SInv (handleScroll c s) := by
  have h1 : SInv (cancelStored c s) := cancelStored_sinv h c
  have hno : ∀ tm ∈ (cancelStored c s).pending, tm.act ≠ TAct.hide c :=
    cancelStored_no_hide h c
  by_cases hs : 0 < (cancelStored c s).settings.showDelay
  · rw [handleScroll_eq_pos c s hs]
    exact sinv_finish c _ (sinv_schedule_show c _ h1)
      (schedule_show_no_hide c _ c hno)
  · rw [handleScroll_eq_neg c s hs]
    exact sinv_finish c _ (sinv_of_fields h1 rfl rfl rfl) (fun tm hm => hno tm hm)

/-- Firing a removed pending timer preserves the invariant. -/
theorem sinv_fireTimer {s : St} (tm : Timer) (h : SInv s) (hm : tm ∈ s.pending) :
    SInv (fireTimer tm { s with pending := s.pending.filter (fun x => x.id ≠ tm.id) }) := by
  have h1 : SInv { s with pending := s.pending.filter (fun x => x.id ≠ tm.id) } :=
    sinv_filter _ h
  cases hact : tm.act
  · rename_i c
    have heq : fireTimer tm { s with pending := s.pending.filter (fun x => x.id ≠ tm.id) } =
        { s with pending := s.pending.filter (fun x => x.id ≠ tm.id),
                 scrolling := addClass s.scrolling c } := by
      simp only [fireTimer, hact]
    rw [heq]
    exact sinv_of_fields h1 rfl rfl rfl
  · rename_i c
    have heq : fireTimer tm { s with pending := s.pending.filter (fun x => x.id ≠ tm.id) } =
        { s with pending := s.pending.filter (fun x => x.id ≠ tm.id),
                 scrolling := removeClass s.scrolling c,
                 timeouts := fun k => if k = c then none else s.timeouts k } := by
      simp only [fireTimer, hact]
    rw [heq]
    refine ⟨h1.idsLt, h1.idsNd, h1.hideNd, ?_, ?_, ?_⟩
    · show ∀ tm' ∈ s.pending.filter (fun x => x.id ≠ tm.id), ∀ c',
          tm'.act = TAct.hide c' → (if c' = c then none else s.timeouts c') = some tm'.id
      intro tm' hm' c' hact'
      have hmem' := List.mem_of_mem_filter hm'
      have hne : tm'.id ≠ tm.id := by simpa using List.of_mem_filter hm'
      have hcc : c' ≠ c := by
        intro he
        have hfa : (fun t => match t.act with
            | TAct.hide x => some x
            | _ => none) tm' = some c := by
          simp only [hact']
          rw [he]
        have hfb : (fun t => match t.act with
            | TAct.hide x => some x
            | _ => none) tm = some c := by
          simp only [hact]
        have heq2 := filterMap_nodup_inj _ s.pending h.hideNd tm' hmem' tm hm c hfa hfb
        exact hne (by rw [heq2])
      rw [if_neg hcc]
      exact h.stored tm' hmem' c' hact'
    · show ∀ k i, (if k = c then none else s.timeouts k) = some i →
          ∀ tm' ∈ s.pending.filter (fun x => x.id ≠ tm.id), tm'.id = i →
            tm'.act = TAct.hide k
      intro k i hio tm' hm' hid
      by_cases hk : k = c
      · rw [if_pos hk] at hio; exact Option.noConfusion hio
      · rw [if_neg hk] at hio
        exact h.storedHide k i hio tm' (List.mem_of_mem_filter hm') hid
    · show ∀ k i, (if k = c then none else s.timeouts k) = some i → i < s.nextId
      intro k i hio
      by_cases hk : k = c
      · rw [if_pos hk] at hio; exact Option.noConfusion hio
      · rw [if_neg hk] at hio; exact h.storedLt k i hio

/-- The timer the event loop picks is pending. -/
theorem pickDue_mem {t : Nat} : ∀ {l : List Timer} {tm : Timer},
    pickDue t l = some tm → tm ∈ l := by
  intro l
  induction l with
  | nil => intro tm h; exact absurd h (by simp [pickDue])
  | cons hd tl ih =>
    intro tm h
    unfold pickDue at h
    cases hp : pickDue t tl with
    | none =>
        simp only [hp] at h
        split at h
        · injection h with h
          rw [← h]
          exact List.mem_cons_self _ _
        · exact Option.noConfusion h
    | some b =>
        simp only [hp] at h
        split at h
        · injection h with h
          rw [← h]
          exact List.mem_cons_self _ _
        · injection h with h
          rw [← h]
          exact List.mem_cons_of_mem _ (ih hp)

/-- Firing due timers preserves the invariant. -/
theorem sinv_fireDue (n t : Nat) : ∀ {s : St}, SInv s → SInv (fireDue n t s) := by
  induction n with
  | zero => intro s h; exact h
  | succ n ih =>
    intro s h
    unfold fireDue
    cases hp : pickDue t s.pending with
    | none => exact h
    | some tm => exact ih (sinv_fireTimer tm h (pickDue_mem hp))

/-- The passage of time preserves the invariant. -/
theorem sinv_advanceTo (t : Nat) {s : St} (h : SInv s) : SInv (advanceTo t s) :=
  sinv_of_fields (sinv_fireDue _ _ h) rfl rfl rfl

/-- Each teardown loop iteration preserves the invariant. -/
theorem sinv_destroyStep (el : Nat) {st : St} (h : SInv st) : SInv (destroyStep st el) := by
  have h1 : SInv ({ st with scrolling := removeClass st.scrolling el } : St) :=
    sinv_of_fields h rfl rfl rfl
  cases hc : st.timeouts el with
  | none =>
      have heq : destroyStep st el = { st with scrolling := removeClass st.scrolling el } := by
        simp only [destroyStep, hc]
      rw [heq]
      exact h1
  | some i =>
      have heq : destroyStep st el =
          { ({ st with scrolling := removeClass st.scrolling el } : St) with
            pending := st.pending.filter (fun tm => tm.id ≠ i) } := by
        simp only [destroyStep, hc]
      rw [heq]
      exact sinv_filter _ h1

/-- The teardown loop preserves the invariant. -/
theorem sinv_foldl_destroyStep : ∀ (l : List Nat) {st : St}, SInv st →
    SInv (l.foldl destroyStep st) := by
  intro l
  induction l with
  | nil => intro st h; exact h
  | cons e l ih => intro st h; exact ih (sinv_destroyStep e h)

/-- Teardown preserves the invariant. -/
theorem sinv_destroy {s : St} (h : SInv s) : SInv (destroy s) := by
  have h1 : SInv ({ s with bodyAutoHide := false, listener := false } : St) :=
    sinv_of_fields h rfl rfl rfl
  have h2 := sinv_foldl_destroyStep
    (({ s with bodyAutoHide := false, listener := false } : St).scrolling) h1
  exact sinv_of_fields h2 rfl rfl rfl

/-- Settings updates preserve the invariant. -/
theorem sinv_updateSettings (ns : Settings) {s : St} (h : SInv s) :
    SInv (updateSettings ns s) :=
  sinv_of_fields h ((updateSettings_frame ns s).2.2.1)
    ((updateSettings_frame ns s).2.2.2.1)
    ((updateSettings_frame ns s).2.2.2.2.2.2.1)

/-- The freshly constructed plugin satisfies the invariant. -/
theorem sinv_mkPlugin (stg : Settings) : SInv (mkPlugin stg) := by
  have hp : (mkPlugin stg).pending = [] := by
    unfold mkPlugin initForWorkspace updateScrollbarColor freshState
    split <;> rfl
  have ht : (mkPlugin stg).timeouts = fun _ => none := by
    unfold mkPlugin initForWorkspace updateScrollbarColor freshState
    split <;> rfl
  refine ⟨?_, ?_, ?_, ?_, ?_, ?_⟩
  · rw [hp]; intro tm hm; exact absurd hm (List.not_mem_nil tm)
  · rw [hp]; simp
  · rw [hp]; simp [hideTgts]
  · rw [hp]; intro tm hm; exact absurd hm (List.not_mem_nil tm)
  · rw [ht]; intro k i hio; exact Option.noConfusion hio
  · rw [ht]; intro k i hio; exact Option.noConfusion hio

/-- Every reachable state satisfies the timer-bookkeeping invariant. -/
theorem reachable_sinv : ∀ {s : St}, Reachable s → SInv s := by
  intro s h
  induction h with
  | init stg => exact sinv_mkPlugin stg
  | tick t _ ih => exact sinv_advanceTo t ih
  | event tg _ ih =>
      cases tg with
      | elem c => exact sinv_handleScroll c ih
      | nonElement => exact ih
      | null => exact ih
  | upd ns _ ih => exact sinv_updateSettings ns ih
  | down _ ih => exact sinv_destroy ih

/-- The hide-timers of a container, counted through `hideTgts`. -/
theorem hideFor_length_eq_count (c : Nat) (l : List Timer) :
    (hideFor c l).length = (hideTgts l).count c := by
  unfold hideFor hideTgts
  induction l with
  | nil => rfl
  | cons tm l ih =>
    rw [List.filter_cons, List.filterMap_cons]
    cases hact : tm.act
    · rename_i c'
      simpa using ih
    · rename_i c'
      by_cases hcc : c' = c
      · simp [hcc, List.count_cons, ih]
      · simp [hcc, List.count_cons, ih]

/-- Under the invariant, each container has at most one pending
hide-timer. -/
theorem hideFor_le_one {s : St} (h : SInv s) (c : Nat) :
    (hideFor c s.pending).length ≤ 1 := by
  rw [hideFor_length_eq_count]
  exact List.nodup_iff_count_le_one.mp h.hideNd c

end AutoShow

namespace AutoShow

/-! ## C2: at most one live hide-timer; scroll replaces it -/

/-- C2: in every reachable state each container has at most one pending
hide-timer, and a handled scroll event on container `c` cancels the
pending hide-timer of `c` (if any) and leaves exactly one, freshly
scheduled to fire `hideDelay + showDelay` ms from now, with its handle
stored for `c`. -/
theorem hide_timer_invariant (s : St) (h : Reachable s) (c : Nat) :
    (hideFor c s.pending).length ≤ 1 ∧
    hideFor c (handleScroll c s).pending =
      [⟨newHideId s, s.now + (s.settings.hideDelay + s.settings.showDelay), TAct.hide c⟩] ∧
    (handleScroll c s).timeouts c = some (newHideId s) := by
  have hs := reachable_sinv h
  refine ⟨hideFor_le_one hs c, ?_, handleScroll_timeouts_self c s⟩
  rw [handleScroll_pending]
  unfold hideFor
  rw [List.filter_append, List.filter_append]
  have h1 : (cancelStored c s).pending.filter (fun tm => tm.act = TAct.hide c) = [] := by
    rw [List.filter_eq_nil_iff]
    intro tm hm
    simp only [decide_eq_true_eq]
    exact cancelStored_no_hide hs c tm hm
  have h2 : ((if 0 < s.settings.showDelay then
      [⟨s.nextId, s.now + s.settings.showDelay, TAct.show c⟩] else ([] : List Timer)).filter
        (fun tm => tm.act = TAct.hide c)) = [] := by
    split <;> simp
  rw [h1, h2]
  simp

/-- Witness for C2 after one scroll event on the default-settings plugin:
the stored hide-timer (handle 1) is cancelled and replaced by the fresh
hide-timer with handle 2 and deadline 750, which is stored. -/
theorem hide_timer_invariant_witness :
    (hideFor 0 (handleEvent (Tgt.elem 0) (mkPlugin ⟨750, 0, none⟩)).pending).length ≤ 1 ∧
    hideFor 0 (handleScroll 0 (handleEvent (Tgt.elem 0) (mkPlugin ⟨750, 0, none⟩))).pending =
      [⟨2, 750, TAct.hide 0⟩] ∧
    (handleScroll 0 (handleEvent (Tgt.elem 0) (mkPlugin ⟨750, 0, none⟩))).timeouts 0 =
      some 2 := by
  have h := hide_timer_invariant (handleEvent (Tgt.elem 0) (mkPlugin ⟨750, 0, none⟩))
    (Reachable.event (Tgt.elem 0) (Reachable.init ⟨750, 0, none⟩)) 0
  refine ⟨h.1, ?_, ?_⟩
  · rw [h.2.1]; decide
  · rw [h.2.2]; decide

/-! ## C5 (amended): show-timers accumulate, hide-timers do not -/

/-- C5 amended: in every reachable state each container has at most one
pending hide-timer, but show-timers are never cancelled: when
`showDelay > 0`, each handled scroll event adds one more pending
show-timer for the container on top of those already pending. -/
theorem show_timers_accumulate (s : St) (c : Nat) (h : Reachable s)
    (hsd : 0 < s.settings.showDelay) :
    (hideFor c s.pending).length ≤ 1 ∧
    (showFor c (handleScroll c s).pending).length = (showFor c s.pending).length + 1 := by
  have hi := reachable_sinv h
  refine ⟨hideFor_le_one hi c, ?_⟩
  rw [handleScroll_pending]
  unfold showFor
  rw [List.filter_append, List.filter_append]
  have hcan : (cancelStored c s).pending.filter (fun tm => tm.act = TAct.show c) =
      s.pending.filter (fun tm => tm.act = TAct.show c) := by
    unfold cancelStored
    cases hc : s.timeouts c with
    | none => rfl
    | some i =>
        show (s.pending.filter (fun tm => tm.id ≠ i)).filter
            (fun tm => tm.act = TAct.show c) = _
        rw [List.filter_filter]
        apply List.filter_congr
        intro tm hm
        by_cases hid : tm.id = i
        · have hhide := hi.storedHide c i hc tm hm hid
          simp [hhide]
        · simp [hid]
  have h2 : ((if 0 < s.settings.showDelay then
      [⟨s.nextId, s.now + s.settings.showDelay, TAct.show c⟩] else ([] : List Timer)).filter
        (fun tm => tm.act = TAct.show c)) =
      [⟨s.nextId, s.now + s.settings.showDelay, TAct.show c⟩] := by
    rw [if_pos hsd]
    simp
  have h3 : (([⟨newHideId s, s.now + (s.settings.hideDelay + s.settings.showDelay),
      TAct.hide c⟩] : List Timer).filter (fun tm => tm.act = TAct.show c)) = [] := by
    simp
  rw [hcan, h2, h3]
  simp

/-- Witness for C5 amended: with showDelay 10 and one scroll event already
handled (one show-timer pending), a second scroll event leaves two
show-timers pending and still at most one hide-timer. -/
theorem show_timers_accumulate_witness :
    (hideFor 0 (handleEvent (Tgt.elem 0) (advanceTo 0 (mkPlugin ⟨20, 10, none⟩))).pending).length ≤ 1 ∧
    (showFor 0 (handleScroll 0 (handleEvent (Tgt.elem 0)
        (advanceTo 0 (mkPlugin ⟨20, 10, none⟩)))).pending).length = 2 := by
  have h := show_timers_accumulate (handleEvent (Tgt.elem 0) (advanceTo 0 (mkPlugin ⟨20, 10, none⟩))) 0
    (Reachable.event (Tgt.elem 0) (Reachable.tick 0 (Reachable.init ⟨20, 10, none⟩)))
    (by decide)
  exact ⟨h.1, h.2.trans (by decide)⟩

end AutoShow

namespace AutoShow

/-! ## C7: teardown idempotence -/

/-- Each teardown loop iteration removes the element's class. -/
theorem destroyStep_scrolling (st : St) (el : Nat) :
    (destroyStep st el).scrolling = removeClass st.scrolling el := by
  cases hc : st.timeouts el with
  | none => simp only [destroyStep, hc]
  | some i => simp only [destroyStep, hc]

/-- Teardown loop iterations change only `scrolling` and `pending`. -/
theorem destroyStep_misc (st : St) (el : Nat) :
    (destroyStep st el).timeouts = st.timeouts ∧
    (destroyStep st el).settings = st.settings ∧
    (destroyStep st el).now = st.now ∧
    (destroyStep st el).nextId = st.nextId ∧
    (destroyStep st el).bodyAutoHide = st.bodyAutoHide ∧
    (destroyStep st el).listener = st.listener ∧
    (destroyStep st el).colorAttr = st.colorAttr ∧
    (destroyStep st el).colorVar = st.colorVar := by
  cases hc : st.timeouts el with
  | none => simp [destroyStep, hc]
  | some i => simp [destroyStep, hc]

/-- The teardown loop removes from the class set exactly the elements of
its snapshot. -/
theorem foldl_destroyStep_scrolling : ∀ (l : List Nat) (st : St),
    (l.foldl destroyStep st).scrolling = st.scrolling.filter (fun x => !(l.contains x)) := by
  intro l
  induction l with
  | nil => intro st; simp
  | cons e l ih =>
      intro st
      show (l.foldl destroyStep (destroyStep st e)).scrolling = _
      rw [ih (destroyStep st e), destroyStep_scrolling]
      unfold removeClass
      rw [List.filter_filter]
      apply List.filter_congr
      intro x hx
      by_cases hxe : x = e
      · simp [hxe, List.contains_cons]
      · by_cases hxl : l.contains x
        · simp [hxe, hxl, List.contains_cons]
        · simp [hxe, hxl, List.contains_cons]

/-- The teardown loop changes only `scrolling` and `pending`. -/
theorem foldl_destroyStep_misc : ∀ (l : List Nat) (st : St),
    (l.foldl destroyStep st).timeouts = st.timeouts ∧
    (l.foldl destroyStep st).settings = st.settings ∧
    (l.foldl destroyStep st).now = st.now ∧
    (l.foldl destroyStep st).nextId = st.nextId ∧
    (l.foldl destroyStep st).bodyAutoHide = st.bodyAutoHide ∧
    (l.foldl destroyStep st).listener = st.listener ∧
    (l.foldl destroyStep st).colorAttr = st.colorAttr ∧
    (l.foldl destroyStep st).colorVar = st.colorVar := by
  intro l
  induction l with
  | nil => intro st; exact ⟨rfl, rfl, rfl, rfl, rfl, rfl, rfl, rfl⟩
  | cons e l ih =>
      intro st
      have h1 := ih (destroyStep st e)
      have h2 := destroyStep_misc st e
      exact ⟨h1.1.trans h2.1, h1.2.1.trans h2.2.1, h1.2.2.1.trans h2.2.2.1,
        h1.2.2.2.1.trans h2.2.2.2.1, h1.2.2.2.2.1.trans h2.2.2.2.2.1,
        h1.2.2.2.2.2.1.trans h2.2.2.2.2.2.1, h1.2.2.2.2.2.2.1.trans h2.2.2.2.2.2.2.1,
        h1.2.2.2.2.2.2.2.trans h2.2.2.2.2.2.2.2⟩

/-- After teardown, no element carries the `scrolling` class. -/
theorem scrolling_destroy_nil (s : St) : (destroy s).scrolling = [] := by
  show ((s.scrolling.foldl destroyStep
      ({ s with bodyAutoHide := false, listener := false } : St))).scrolling = []
  rw [foldl_destroyStep_scrolling]
  rw [List.filter_eq_nil_iff]
  intro a ha
  simpa using List.elem_eq_true_of_mem ha

/-- Teardown clears the body class, the listener and the styling. -/
theorem destroy_flags (s : St) :
    (destroy s).bodyAutoHide = false ∧ (destroy s).listener = false ∧
    (destroy s).colorAttr = false ∧ (destroy s).colorVar = none := by
  refine ⟨?_, ?_, rfl, rfl⟩
  · exact (foldl_destroyStep_misc s.scrolling
      ({ s with bodyAutoHide := false, listener := false } : St)).2.2.2.2.1
  · exact (foldl_destroyStep_misc s.scrolling
      ({ s with bodyAutoHide := false, listener := false } : St)).2.2.2.2.2.1

/-- Teardown of a state with no `scrolling` elements only clears the
flags and styling. -/
theorem destroy_of_scrolling_nil {s : St} (h : s.scrolling = []) :
    destroy s = { s with
                  bodyAutoHide := false, listener := false,
                  colorAttr := false, colorVar := none } := by
  simp only [destroy, h, List.foldl_nil]

/-- C7 amended: `destroy` is idempotent — a second call is a no-op and
the end state is the same; after teardown no listener is attached, no
container carries the `scrolling` class, the body class and the global
styling are gone (pending timers, however, may survive teardown; see the
counterexample). -/
theorem destroy_idempotent (s : St) :
    destroy (destroy s) = destroy s ∧
    (destroy s).scrolling = [] ∧
    (destroy s).listener = false ∧
    (destroy s).bodyAutoHide = false ∧
    (destroy s).colorAttr = false ∧
    (destroy s).colorVar = none := by
  have hs := scrolling_destroy_nil s
  have hf := destroy_flags s
  refine ⟨?_, hs, hf.2.1, hf.1, hf.2.2.1, hf.2.2.2⟩
  rw [destroy_of_scrolling_nil hs]
  exact stEq rfl rfl rfl rfl rfl rfl hf.1.symm hf.2.1.symm hf.2.2.1.symm hf.2.2.2.symm

end AutoShow

namespace AutoShow

/-! ## C1: the active window under showDelay = 0 -/

/-- Advancing time before the hide deadline only moves the clock. -/
theorem advanceTo_mkShape_keep (d c tau dl i n t : Nat) (h1 : tau ≤ t) (h2 : ¬ dl ≤ t) :
    advanceTo t (mkShape d c tau dl i n) = mkShape d c t dl i n := by
  have htt : max tau t = t := Nat.max_eq_right h1
  simp [advanceTo, mkShape, fireDue, pickDue, htt, h2]

/-- Advancing time past the hide deadline fires the hide-timer: the
container loses the `scrolling` class. -/
theorem advanceTo_mkShape_fired (d c tau dl i n t : Nat) (h1 : tau ≤ t) (h2 : dl ≤ t) :
    isScrolling c (advanceTo t (mkShape d c tau dl i n)) = false := by
  have htt : max tau t = t := Nat.max_eq_right h1
  simp [advanceTo, mkShape, fireDue, pickDue, fireTimer, removeClass, isScrolling, htt, h2]

/-- A scroll event in the mid-burst shape (showDelay = 0) cancels the
pending hide-timer, keeps the class, and schedules a fresh hide-timer
`d` ms from now, storing its handle. -/
theorem handleScroll_mkShape (d c tau dl i n : Nat) :
    handleScroll c (mkShape d c tau dl i n) = mkShape d c tau (tau + d) n (n + 1) := by
  have hcan : cancelStored c (mkShape d c tau dl i n) =
      { mkShape d c tau dl i n with pending := [] } := by
    have hto : (mkShape d c tau dl i n).timeouts c = some i := by simp [mkShape]
    simp [cancelStored, hto, mkShape]
  have hs : ¬ 0 < (cancelStored c (mkShape d c tau dl i n)).settings.showDelay := by
    rw [hcan]
    simp [mkShape]
  rw [handleScroll_eq_neg c _ hs, hcan]
  apply stEq
  · rfl
  · rfl
  · rfl
  · show ([] : List Timer) ++ [⟨n, tau + (d + 0), TAct.hide c⟩] = [⟨n, tau + d, TAct.hide c⟩]
    simp
  · show (fun k =>
        if k = c then
          some n
        else
          (schedule (TAct.hide c) (d + 0)
            { ({ mkShape d c tau dl i n with pending := [] } : St) with
              scrolling := addClass ({ mkShape d c tau dl i n with
                pending := [] } : St).scrolling c }).timeouts k) =
      (mkShape d c tau (tau + d) n (n + 1)).timeouts
    funext k
    by_cases hk : k = c
    · simp [hk, mkShape]
    · simp [hk, mkShape, schedule]
  · show addClass ({ mkShape d c tau dl i n with pending := [] } : St).scrolling c =
      (mkShape d c tau (tau + d) n (n + 1)).scrolling
    simp [mkShape, addClass]
  · rfl
  · rfl
  · rfl
  · rfl

/-- The first scroll event on the fresh plugin (showDelay = 0) produces
the mid-burst shape: class on, one hide-timer at `t0 + d` with handle 1
stored, next handle 2. -/
theorem first_event_shape (d c t0 : Nat) :
    handleScroll c (advanceTo t0 (mkPlugin ⟨d, 0, none⟩)) = mkShape d c t0 (t0 + d) 1 2 := by
  have hadv : advanceTo t0 (mkPlugin ⟨d, 0, none⟩) =
      { mkPlugin ⟨d, 0, none⟩ with now := t0 } := by
    simp [advanceTo, mkPlugin, initForWorkspace, updateScrollbarColor, freshState,
      colorTruthy, fireDue, Nat.zero_max]
  rw [hadv]
  rfl

/-- Events after a gap-bounded prefix are later than its start. -/
theorem gapsOK_lt (d : Nat) : ∀ (p : Nat) (es : List Nat), gapsOKb d p es = true →
    ∀ x ∈ es, p < x := by
  intro p es
  induction es generalizing p with
  | nil => intro _ x hx; exact absurd hx (List.not_mem_nil x)
  | cons e es ih =>
      intro hg x hx
      have hg2 : p < e ∧ e < p + d ∧ gapsOKb d e es = true := by
        simpa [gapsOKb, Bool.and_assoc] using hg
      rcases List.mem_cons.mp hx with rfl | hx
      · exact hg2.1
      · exact Nat.lt_trans hg2.1 (ih e hg2.2.2 x hx)

/-- `lastLE` ignores events later than the query time. -/
theorem lastLE_all_gt (t : Nat) : ∀ (es : List Nat) (t0 : Nat),
    (∀ x ∈ es, ¬ x ≤ t) → lastLE t0 es t = t0 := by
  intro es
  induction es with
  | nil => intro t0 _; rfl
  | cons e es ih =>
      intro t0 h
      have hstep : lastLE t0 (e :: es) t = lastLE (if e ≤ t then e else t0) es t := rfl
      rw [hstep, if_neg (h e (List.mem_cons_self e es))]
      exact ih t0 (fun x hx => h x (List.mem_cons_of_mem e hx))

/-- Filtering keeps nothing when every event is later than the query
time. -/
theorem filter_none_of_gt {t : Nat} {es : List Nat} (h : ∀ x ∈ es, ¬ x ≤ t) :
    es.filter (fun e => decide (e ≤ t)) = [] := by
  rw [List.filter_eq_nil_iff]
  intro a ha
  simpa using h a ha

/-- The class trajectory from the mid-burst shape: with `showDelay = 0`
and events spaced below `d`, the container carries the class at time `t`
exactly when `t` is before the last delivered event plus `d`. -/
theorem run_class_shape (d c : Nat) :
    ∀ (es : List Nat) (L i n : Nat), gapsOKb d L es = true →
      ∀ t, L ≤ t →
        isScrolling c (advanceTo t (runEvents c (es.filter (fun e => decide (e ≤ t)))
          (mkShape d c L (L + d) i n))) =
          decide (t < lastLE L es t + d) := by
  intro es
  induction es with
  | nil =>
      intro L i n _ t ht
      show isScrolling c (advanceTo t (mkShape d c L (L + d) i n)) = decide (t < L + d)
      by_cases h2 : L + d ≤ t
      · rw [advanceTo_mkShape_fired d c L (L + d) i n t ht h2]
        simp [Nat.not_lt.mpr h2]
      · rw [advanceTo_mkShape_keep d c L (L + d) i n t ht h2]
        simp [isScrolling, mkShape, Nat.not_le.mp h2]
  | cons e es ih =>
      intro L i n hg t ht
      have hg2 : L < e ∧ e < L + d ∧ gapsOKb d e es = true := by
        simpa [gapsOKb, Bool.and_assoc] using hg
      by_cases he : e ≤ t
      · have hfil : (e :: es).filter (fun x => decide (x ≤ t)) =
            e :: es.filter (fun x => decide (x ≤ t)) := by simp [he]
        rw [hfil]
        have hrun : runEvents c (e :: es.filter (fun x => decide (x ≤ t)))
            (mkShape d c L (L + d) i n) =
            runEvents c (es.filter (fun x => decide (x ≤ t)))
              (handleScroll c (advanceTo e (mkShape d c L (L + d) i n))) := rfl
        rw [hrun]
        have h1e := hg2.1
        have h2e := hg2.2.1
        rw [advanceTo_mkShape_keep d c L (L + d) i n e (Nat.le_of_lt h1e)
          (by omega)]
        rw [handleScroll_mkShape]
        have hlast : lastLE L (e :: es) t = lastLE e es t := by
          have hstep : lastLE L (e :: es) t = lastLE (if e ≤ t then e else L) es t := rfl
          rw [hstep, if_pos he]
        rw [hlast]
        exact ih e n (n + 1) hg2.2.2 t he
      · have hall : ∀ x ∈ (e :: es), ¬ x ≤ t := by
          intro x hx
          rcases List.mem_cons.mp hx with rfl | hx
          · exact he
          · intro hle
            have hex := gapsOK_lt d e es hg2.2.2 x hx
            exact he (by omega)
        rw [filter_none_of_gt hall]
        show isScrolling c (advanceTo t (mkShape d c L (L + d) i n)) = _
        rw [lastLE_all_gt t (e :: es) L hall]
        have hlt : t < L + d := by
          have hte := Nat.not_le.mp he
          have h2e := hg2.2.1
          omega
        rw [advanceTo_mkShape_keep d c L (L + d) i n t ht (by omega)]
        simp [isScrolling, mkShape, hlt]

/-- C1 amended, for `showDelay = 0`: for every container and every burst
of scroll events spaced less than `hideDelay` apart, the container
carries the `scrolling` class at any time `t` from the first event on
exactly while `t` is less than the last delivered event plus `hideDelay`:
Active throughout the burst and for exactly `hideDelay` ms after the last
event, then Idle — never earlier, with each event cancelling and
replacing the pending hide-timer. -/
theorem debounce_active_window (d c t0 : Nat) (es : List Nat) (t : Nat)
    (hd : 0 < d) (hg : gapsOKb d t0 es = true) (ht : t0 ≤ t) :
    classAt c ⟨d, 0, none⟩ (t0 :: es) t = decide (t < lastLE t0 es t + d) := by
  unfold classAt
  have hfil : (t0 :: es).filter (fun e => decide (e ≤ t)) =
      t0 :: es.filter (fun e => decide (e ≤ t)) := by simp [ht]
  rw [hfil]
  have hrun : runEvents c (t0 :: es.filter (fun e => decide (e ≤ t))) (mkPlugin ⟨d, 0, none⟩) =
      runEvents c (es.filter (fun e => decide (e ≤ t)))
        (handleScroll c (advanceTo t0 (mkPlugin ⟨d, 0, none⟩))) := rfl
  rw [hrun, first_event_shape]
  exact run_class_shape d c es t0 1 2 hg t ht

/-- Witness for C1 amended: hideDelay 3, events at 0, 2, 4 (gaps below
3): at t = 5 the class is on (5 < 4 + 3), matching the window formula. -/
theorem debounce_active_window_witness :
    (0 < 3 ∧ gapsOKb 3 0 [2, 4] = true ∧ 0 ≤ 5) ∧
    classAt 0 ⟨3, 0, none⟩ [0, 2, 4] 5 = decide (5 < lastLE 0 [2, 4] 5 + 3) ∧
    classAt 0 ⟨3, 0, none⟩ [0, 2, 4] 5 = true ∧
    classAt 0 ⟨3, 0, none⟩ [0, 2, 4] 7 = false := by
  refine ⟨by decide, ?_, by decide, by decide⟩
  exact debounce_active_window 3 0 0 [2, 4] 5 (by decide) (by decide) (by decide)

end AutoShow
